import Mathlib

/-!
Verification development for the AI-job-market dashboard repository.

The file embeds, as executable Lean definitions over rational numbers, the two
data-transformation routines of the repository:

* the multi-metric aggregation and min-max normalization pipeline of the page
  "A multidimensional comparative analysis of job roles in the field of AI.py"
  (sections 4 and 5 of that file: the selected-metrics guard, the per-metric
  groupby aggregation, the min-max scaling with the epsilon floor, and the
  concatenation into one long-form table), and

* the skill aggregation, the Job_Count threshold filter and the
  label-decluttering score logic of the page
  "AI Skills Landscape in the Job Market Demand vs. Salary.py".

Floating-point columns are modelled over the rationals; a missing value (NaN)
is modelled as the `none` case of `Option`, with pandas semantics made
explicit: `mean`, `min` and `max` skip missing values, a comparison with a
missing value is false, arithmetic propagates missing values, and a missing
group key drops the row from the grouping.
-/

namespace Dashboard

/-- A cell of the tabular dataset: a string, a numeric value, or missing
(pandas NaN / None). -/
inductive Cell where
  | str : String → Cell
  | num : ℚ → Cell
  | null : Cell
deriving DecidableEq

/-- A dataset row: a finite mapping from column name to cell value. -/
structure Row where
  entries : List (String × Cell)
deriving DecidableEq

/-- First entry of an association list for a column name, missing otherwise. -/
def lookupCell : List (String × Cell) → String → Cell
  | [], _ => Cell.null
  | p :: ps, c => if p.1 = c then p.2 else lookupCell ps c

/-- Reading a column of a row; a column with no entry reads as missing. -/
def Row.get (r : Row) (c : String) : Cell :=
  lookupCell r.entries c

/-- The dataset: declared columns plus the ordered rows, as loaded from the
CSV file. -/
structure DataFrame where
  columns : List String
  rows : List Row
deriving DecidableEq

/-- First-occurrence deduplication, used to enumerate the groups of a
groupby.  (pandas sorts the group keys for display; every claim below is
about the set of groups, so the enumeration order is immaterial.) -/
def uniqueCells (l : List Cell) : List Cell :=
  l.foldl (fun acc c => if c ∈ acc then acc else acc ++ [c]) []

/-- The group keys of `df.groupby(key)`: the distinct non-missing values of
the key column (pandas drops rows whose group key is NaN). -/
def groupsOf (df : DataFrame) (key : String) : List Cell :=
  uniqueCells ((df.rows.map (fun r => r.get key)).filter (fun c => decide (c ≠ Cell.null)))

/-- The rows of one group of `df.groupby(key)`. -/
def rowsOfGroup (df : DataFrame) (key : String) (g : Cell) : List Row :=
  df.rows.filter (fun r => decide (r.get key = g))

/-- Numeric view of a cell; strings and missing cells carry no number. -/
def cellNum : Cell → Option ℚ
  | Cell.num q => some q
  | _ => none

/-- The aggregation functions used by METRICS_CONFIG: pandas "size",
"nunique" and "mean". -/
inductive Aggregator where
  | size
  | nunique
  | mean
deriving DecidableEq

/-- One entry of METRICS_CONFIG: display name, source column (absent for the
"size" aggregator) and aggregation function. -/
structure MetricDef where
  name : String
  column : Option String
  agg : Aggregator
deriving DecidableEq

/-- The failure modes of the pipeline.  `NoMetricsSelected` is the spec name
for the empty-selection guard (st.warning followed by st.stop).  `KeyError`
is the pandas exception raised by a lookup of an absent column; the page has
no column validation of its own.  `InvalidGroupKey` and
`InvalidMetricColumn` are the signals named by the spec; the code below
never produces them. -/
inductive PipelineError where
  | NoMetricsSelected
  | InvalidGroupKey
  | InvalidMetricColumn
  | KeyError : String → PipelineError
deriving DecidableEq

/-- pandas mean with skipna semantics, applied to the list of the non-missing
numeric values of a group: the mean when at least one value is present, NaN
otherwise. -/
def meanOpt (vals : List ℚ) : Option ℚ :=
  if vals.length = 0 then none else some (vals.sum / (vals.length : ℚ))

/-- The per-metric aggregation step of the plot_data loop:
`df.groupby("job_title").size()`, `...[col].nunique()` or `...[col].mean()`,
each producing one raw value per group.  A lookup of a column absent from
the dataset raises a pandas KeyError, modelled as the error branch.  Note
that `mean` keeps a group all of whose values are missing: the group stays
in the result with a NaN raw value. -/
def aggregate (df : DataFrame) (key : String) (m : MetricDef) :
    Except PipelineError (List (Cell × Option ℚ)) :=
  if key ∈ df.columns then
    match m.agg with
    | Aggregator.size =>
        Except.ok ((groupsOf df key).map (fun g =>
          (g, some ((rowsOfGroup df key g).length : ℚ))))
    | Aggregator.nunique =>
        match m.column with
        | some c =>
            if c ∈ df.columns then
              Except.ok ((groupsOf df key).map (fun g =>
                (g, some ((uniqueCells (((rowsOfGroup df key g).map (fun r => r.get c)).filter
                  (fun v => decide (v ≠ Cell.null)))).length : ℚ))))
            else Except.error (PipelineError.KeyError c)
        | none => Except.error (PipelineError.KeyError "None")
    | Aggregator.mean =>
        match m.column with
        | some c =>
            if c ∈ df.columns then
              Except.ok ((groupsOf df key).map (fun g =>
                (g, meanOpt ((rowsOfGroup df key g).filterMap (fun r => cellNum (r.get c))))))
            else Except.error (PipelineError.KeyError c)
        | none => Except.error (PipelineError.KeyError "None")
  else Except.error (PipelineError.KeyError key)

/-- The minimal visible bar height of the normalization step (0.02). -/
def epsilon : ℚ := 2 / 100

/-- Subtraction of possibly-missing values; NaN propagates. -/
def optSub : Option ℚ → Option ℚ → Option ℚ
  | some a, some b => some (a - b)
  | _, _ => none

/-- Division of possibly-missing values; NaN propagates.  (Only reached with
a non-zero divisor: the degenerate branch of `normCell` catches
max - min = 0.) -/
def optDiv : Option ℚ → Option ℚ → Option ℚ
  | some a, some b => some (a / b)
  | _, _ => none

/-- pandas Series.min with skipna: the minimum of the non-missing values,
NaN when there are none. -/
def seriesMin (vals : List (Option ℚ)) : Option ℚ :=
  match vals.filterMap id with
  | [] => none
  | v :: vs => some (vs.foldl min v)

/-- pandas Series.max with skipna. -/
def seriesMax (vals : List (Option ℚ)) : Option ℚ :=
  match vals.filterMap id with
  | [] => none
  | v :: vs => some (vs.foldl max v)

/-- The normalized value of one raw cell, for the min and max of the call:
if `max_val - min_val == 0` every row is assigned 1.0 (including rows whose
raw value is NaN, since the source assigns the scalar to the whole column);
otherwise `(raw - min) / (max - min)`, with NaN propagating.  The clip at
`epsilon` applies to both branches and leaves NaN alone. -/
def normCell (minv maxv v : Option ℚ) : Option ℚ :=
  let base := if optSub maxv minv = some 0 then some 1
              else optDiv (optSub v minv) (optSub maxv minv)
  base.map (fun x => max x epsilon)

/-- The normalized value a raw value receives within one call of the
normalization step over the raw column `l`. -/
def normalizedOf (l : List (Cell × Option ℚ)) (v : Option ℚ) : Option ℚ :=
  normCell (seriesMin (l.map Prod.snd)) (seriesMax (l.map Prod.snd)) v

/-- The normalization step of section 5 of the page: min and max of the raw
column, the degenerate all-tied branch, the linear rescale, and the epsilon
clip. -/
def normalize (l : List (Cell × Option ℚ)) : List (Cell × Option ℚ) :=
  l.map (fun p => (p.1, normalizedOf l p.2))

/-- One row of the long-form plot table. -/
structure TableRow where
  group : Cell
  metric : String
  raw_value : Option ℚ
  normalized_value : Option ℚ
deriving DecidableEq

/-- One iteration of the plot_data loop: aggregate one metric, normalize its
raw column, and tag the rows with the metric name. -/
def metricRows (df : DataFrame) (key : String) (m : MetricDef) :
    Except PipelineError (List TableRow) :=
  match aggregate df key m with
  | Except.error e => Except.error e
  | Except.ok raw =>
      Except.ok (raw.map (fun p => TableRow.mk p.1 m.name p.2 (normalizedOf raw p.2)))

/-- The plot_data loop over the selected metrics; the first failing metric
aborts the run with its error, as an uncaught exception would. -/
def buildParts (df : DataFrame) (key : String) :
    List MetricDef → Except PipelineError (List (List TableRow))
  | [] => Except.ok []
  | m :: ms =>
      match metricRows df key m with
      | Except.error e => Except.error e
      | Except.ok rows =>
          match buildParts df key ms with
          | Except.error e => Except.error e
          | Except.ok rest => Except.ok (rows :: rest)

/-- The whole pipeline of the page: the empty-selection guard (st.warning and
st.stop, named NoMetricsSelected by the spec), then the per-metric loop and
the pd.concat of the parts. -/
def build_comparison_table (df : DataFrame) (key : String) (metrics : List MetricDef) :
    Except PipelineError (List TableRow) :=
  if metrics = [] then Except.error PipelineError.NoMetricsSelected
  else
    match buildParts df key metrics with
    | Except.error e => Except.error e
    | Except.ok parts => Except.ok parts.flatten

/-- A metric whose column lookups cannot raise: either the "size" aggregator
(which reads no column) or a source column present in the dataset. -/
def metricOk (df : DataFrame) (m : MetricDef) : Bool :=
  match m.agg, m.column with
  | Aggregator.size, _ => true
  | _, some c => decide (c ∈ df.columns)
  | _, none => false

/-- A row of the skills page after the explode of required_skills: one skill
per row, with the experience level and the (possibly missing) salary. -/
structure JobRow where
  experience_level : String
  skills_list : String
  salary_usd : Option ℚ
deriving DecidableEq

/-- The replace step applied to the skills column before aggregation. -/
def renameSkill (s : String) : String :=
  if s = "Data Visualization" then "Data Viz"
  else if s = "Machine Learning" then "ML"
  else if s = "Natural Language Processing" then "NLP"
  else if s = "Computer Vision" then "CV"
  else s

/-- The replace step over the whole frame. -/
def renameRows (rows : List JobRow) : List JobRow :=
  rows.map (fun r => { r with skills_list := renameSkill r.skills_list })

/-- One row of skill_stats before the threshold filter: skill name, mean
salary (NaN when no non-missing salary exists) and the Job_Count, which the
source computes as count of the salary_usd column, i.e. the number of
non-missing salaries of the group. -/
structure RawSkillStat where
  skills_list : String
  Average_Salary : Option ℚ
  Job_Count : ℕ
deriving DecidableEq

/-- First-occurrence deduplication of strings, enumerating the groups of the
skills groupby (again, only the set of groups matters to the claims). -/
def uniqueStrings (l : List String) : List String :=
  l.foldl (fun acc c => if c ∈ acc then acc else acc ++ [c]) []

/-- The skills aggregation:
groupby skills_list, Average_Salary = mean of salary_usd, Job_Count = count
of salary_usd. -/
def skillAgg (rows : List JobRow) : List RawSkillStat :=
  (uniqueStrings (rows.map JobRow.skills_list)).map (fun sk =>
    let sals := (rows.filter (fun r => decide (r.skills_list = sk))).filterMap JobRow.salary_usd
    RawSkillStat.mk sk (meanOpt sals) sals.length)

/-- pandas Series.round(0): round to the nearest integer, ties to the even
integer. -/
def roundHalfEven (q : ℚ) : ℚ :=
  let f : ℤ := ⌊q⌋
  if q - (f : ℚ) < 1 / 2 then (f : ℚ)
  else if 1 / 2 < q - (f : ℚ) then (f : ℚ) + 1
  else if f % 2 = 0 then (f : ℚ) else (f : ℚ) + 1

/-- skill_stats after the minimum-noise filter (Job_Count >= 10) and the
rounding of Average_Salary. -/
def skillStats (rows : List JobRow) : List RawSkillStat :=
  ((skillAgg rows).filter (fun s => decide (10 ≤ s.Job_Count))).map
    (fun s => RawSkillStat.mk s.skills_list (s.Average_Salary.map roundHalfEven) s.Job_Count)

/-- An entity of the label-decluttering table: name, salary and demand, the
shape the spec gives the heuristic (after the threshold filter the salary of
every surviving row is an actual number). -/
structure SkillStat where
  name : String
  salary : ℚ
  count : ℚ
deriving DecidableEq

/-- pandas Series.max over a column of the stats table; the empty case is
never reached by the claims (pandas would yield NaN there). -/
def colMax (l : List ℚ) : ℚ :=
  match l with
  | [] => 0
  | v :: vs => vs.foldl max v

/-- The composite Score of one entity within the table:
salary / max(salary) + demand / max(demand). -/
def scoreOf (tbl : List SkillStat) (s : SkillStat) : ℚ :=
  s.salary / colMax (tbl.map SkillStat.salary) + s.count / colMax (tbl.map SkillStat.count)

/-- Decreasing-score order of the table, the sort order of nlargest. -/
def scoreDescRel (tbl : List SkillStat) : SkillStat → SkillStat → Prop :=
  fun a b => scoreOf tbl b ≤ scoreOf tbl a

instance (tbl : List SkillStat) : DecidableRel (scoreDescRel tbl) :=
  fun a b => inferInstanceAs (Decidable (scoreOf tbl b ≤ scoreOf tbl a))

instance (tbl : List SkillStat) : IsTotal SkillStat (scoreDescRel tbl) :=
  ⟨fun a b => le_total (scoreOf tbl b) (scoreOf tbl a)⟩

instance (tbl : List SkillStat) : IsTrans SkillStat (scoreDescRel tbl) :=
  ⟨fun _ _ _ h1 h2 => le_trans h2 h1⟩

/-- pandas nlargest(n, "Score") with the default keep="first": the first n
rows of the stable descending sort by Score, ties resolved in favour of the
earlier row of the input. -/
def nlargestByScore (n : ℕ) (tbl : List SkillStat) : List SkillStat :=
  (tbl.insertionSort (scoreDescRel tbl)).take n

/-- The names of the selected entities, the top_skills list of the source. -/
def top_skills (n : ℕ) (tbl : List SkillStat) : List String :=
  (nlargestByScore n tbl).map SkillStat.name

/-- The Label column: the name of an entity of the top-K, the empty string
otherwise. -/
def labelTable (n : ℕ) (tbl : List SkillStat) : List (SkillStat × String) :=
  tbl.map (fun s => (s, if s.name ∈ top_skills n tbl then s.name else ""))

/-- The fixed configuration constant of the page. -/
def num_labels : ℕ := 30

/-- Conversion of a filtered stat row to the label-table shape.  Job_Count
of a surviving row is at least 10, hence positive, so its Average_Salary is
an actual number and the default of getD is never used. -/
def toSkillStat (s : RawSkillStat) : SkillStat :=
  SkillStat.mk s.skills_list (s.Average_Salary.getD 0) (s.Job_Count : ℚ)

/-- The whole skills page for one experience-level selection: the
experience_level filter, the rename, the aggregation, the Job_Count >= 10
filter, the rounding and the label logic. -/
def skillPage (sel : List String) (rows : List JobRow) : List (SkillStat × String) :=
  let filtered := rows.filter (fun r => decide (r.experience_level ∈ sel))
  labelTable num_labels ((skillStats (renameRows filtered)).map toSkillStat)

/-! ### Concrete inputs used by the counterexamples and witnesses -/

/-- A two-row dataset in which the group "A" has no non-missing salary. -/
def dfC5 : DataFrame :=
  DataFrame.mk ["job_title", "salary_usd"]
    [Row.mk [("job_title", Cell.str "A"), ("salary_usd", Cell.null)],
     Row.mk [("job_title", Cell.str "B"), ("salary_usd", Cell.num 100)]]

/-- The salary metric of METRICS_CONFIG. -/
def mSal : MetricDef := MetricDef.mk "Average Salary (USD)" (some "salary_usd") Aggregator.mean

/-- The job-count metric of METRICS_CONFIG. -/
def mCount : MetricDef := MetricDef.mk "Job Count" none Aggregator.size

/-- The three-entity table of the label-decluttering scenario: the scores
within this table are X -> 1.8, Y -> 1.5, Z -> 0.9. -/
def exampleTbl : List SkillStat :=
  [SkillStat.mk "X" 100 80, SkillStat.mk "Y" 50 100, SkillStat.mk "Z" 40 50]

/-- Ten identical rows of one skill, enough to survive the threshold. -/
def wrows : List JobRow := List.replicate 10 (JobRow.mk "EN" "Python" (some 100))

/-! ### Helper lemmas on folds, minima and maxima -/

theorem foldl_min_le_init (vs : List ℚ) (v : ℚ) : vs.foldl min v ≤ v := by
  induction vs generalizing v with
  | nil => simp
  | cons w ws ih =>
      calc (w :: ws).foldl min v = ws.foldl min (min v w) := rfl
        _ ≤ min v w := ih _
        _ ≤ v := min_le_left _ _

theorem foldl_min_le_mem (vs : List ℚ) (v x : ℚ) (hx : x ∈ vs) : vs.foldl min v ≤ x := by
  induction vs generalizing v with
  | nil => cases hx
  | cons w ws ih =>
      rcases List.mem_cons.1 hx with h | h
      · subst h
        exact le_trans (foldl_min_le_init ws (min v x)) (min_le_right v x)
      · exact ih _ h

theorem init_le_foldl_max (vs : List ℚ) (v : ℚ) : v ≤ vs.foldl max v := by
  induction vs generalizing v with
  | nil => simp
  | cons w ws ih =>
      calc v ≤ max v w := le_max_left _ _
        _ ≤ ws.foldl max (max v w) := ih _
        _ = (w :: ws).foldl max v := rfl

theorem mem_le_foldl_max (vs : List ℚ) (v x : ℚ) (hx : x ∈ vs) : x ≤ vs.foldl max v := by
  induction vs generalizing v with
  | nil => cases hx
  | cons w ws ih =>
      rcases List.mem_cons.1 hx with h | h
      · subst h
        exact le_trans (le_max_right v x) (init_le_foldl_max ws (max v x))
      · exact ih _ h

theorem seriesMin_le (vals : List (Option ℚ)) (m x : ℚ)
    (hm : seriesMin vals = some m) (hx : some x ∈ vals) : m ≤ x := by
  have hx2 : x ∈ vals.filterMap id := by
    exact List.mem_filterMap.2 ⟨some x, hx, rfl⟩
  cases hfm : vals.filterMap id with
  | nil => rw [hfm] at hx2; cases hx2
  | cons v vs =>
      rw [seriesMin, hfm] at hm
      have hm2 : m = vs.foldl min v := by
        exact (Option.some_injective ℚ hm).symm
      rw [hfm] at hx2
      rcases List.mem_cons.1 hx2 with h | h
      · subst h; rw [hm2]; exact foldl_min_le_init vs x
      · rw [hm2]; exact foldl_min_le_mem vs v x h

theorem le_seriesMax (vals : List (Option ℚ)) (M x : ℚ)
    (hM : seriesMax vals = some M) (hx : some x ∈ vals) : x ≤ M := by
  have hx2 : x ∈ vals.filterMap id := by
    exact List.mem_filterMap.2 ⟨some x, hx, rfl⟩
  cases hfm : vals.filterMap id with
  | nil => rw [hfm] at hx2; cases hx2
  | cons v vs =>
      rw [seriesMax, hfm] at hM
      have hM2 : M = vs.foldl max v := by
        exact (Option.some_injective ℚ hM).symm
      rw [hfm] at hx2
      rcases List.mem_cons.1 hx2 with h | h
      · subst h; rw [hM2]; exact init_le_foldl_max vs x
      · rw [hM2]; exact mem_le_foldl_max vs v x h

theorem seriesMin_isSome (vals : List (Option ℚ)) (x : ℚ) (hx : some x ∈ vals) :
    ∃ m, seriesMin vals = some m := by
  have hx2 : x ∈ vals.filterMap id := List.mem_filterMap.2 ⟨some x, hx, rfl⟩
  cases hfm : vals.filterMap id with
  | nil => rw [hfm] at hx2; cases hx2
  | cons v vs => exact ⟨vs.foldl min v, by rw [seriesMin, hfm]⟩

theorem seriesMax_isSome (vals : List (Option ℚ)) (x : ℚ) (hx : some x ∈ vals) :
    ∃ M, seriesMax vals = some M := by
  have hx2 : x ∈ vals.filterMap id := List.mem_filterMap.2 ⟨some x, hx, rfl⟩
  cases hfm : vals.filterMap id with
  | nil => rw [hfm] at hx2; cases hx2
  | cons v vs => exact ⟨vs.foldl max v, by rw [seriesMax, hfm]⟩

theorem foldl_min_mem (vs : List ℚ) (v : ℚ) : vs.foldl min v ∈ v :: vs := by
  induction vs generalizing v with
  | nil => simp
  | cons w ws ih =>
      rw [List.foldl_cons]
      rcases List.mem_cons.1 (ih (min v w)) with h2 | h2
      · rw [h2]
        rcases min_cases v w with ⟨he, _⟩ | ⟨he, _⟩
        · rw [he]; exact List.mem_cons_self _ _
        · rw [he]; exact List.mem_cons.2 (Or.inr (List.mem_cons_self _ _))
      · exact List.mem_cons.2 (Or.inr (List.mem_cons.2 (Or.inr h2)))

theorem seriesMin_mem (vals : List (Option ℚ)) (m : ℚ)
    (hm : seriesMin vals = some m) : some m ∈ vals := by
  cases hfm : vals.filterMap id with
  | nil => rw [seriesMin, hfm] at hm; cases hm
  | cons v vs =>
      rw [seriesMin, hfm] at hm
      have hm2 : m = vs.foldl min v := (Option.some_injective ℚ hm).symm
      have hmem : m ∈ vals.filterMap id := by
        rw [hfm, hm2]; exact foldl_min_mem vs v
      rcases List.mem_filterMap.1 hmem with ⟨o, ho, hid⟩
      rw [show o = some m from hid] at ho
      exact ho

theorem seriesMin_le_seriesMax (vals : List (Option ℚ)) (m M : ℚ)
    (hm : seriesMin vals = some m) (hM : seriesMax vals = some M) : m ≤ M :=
  le_seriesMax vals M m hM (seriesMin_mem vals m hm)

/-- The lifting of an all-present raw mapping into the Option-valued shape. -/
def liftVals (l : List (Cell × ℚ)) : List (Cell × Option ℚ) :=
  l.map (fun q => (q.1, some q.2))

theorem liftVals_snd (l : List (Cell × ℚ)) :
    (liftVals l).map Prod.snd = l.map (fun q => some q.2) := by
  simp [liftVals]

/-! ### Claims about the normalization step -/

/-- C1: for every non-empty raw-value mapping in which the maximum raw value
equals the minimum raw value (all groups tied, including a single-entry
mapping), normalize assigns every group the normalized value exactly 1.0. -/
theorem normalize_all_tied (l : List (Cell × ℚ)) (h : l ≠ [])
    (htie : seriesMax ((liftVals l).map Prod.snd) = seriesMin ((liftVals l).map Prod.snd)) :
    ∀ p ∈ normalize (liftVals l), p.2 = some 1 := by
  intro p hp
  obtain ⟨q0, hq0⟩ : ∃ q0, q0 ∈ l := by
    cases l with
    | nil => exact absurd rfl h
    | cons a as => exact ⟨a, List.mem_cons_self a as⟩
  have hv : some q0.2 ∈ (liftVals l).map Prod.snd := by
    rw [liftVals_snd]
    exact List.mem_map.2 ⟨q0, hq0, rfl⟩
  obtain ⟨m, hm⟩ := seriesMin_isSome _ _ hv
  have hsub : optSub (seriesMax ((liftVals l).map Prod.snd))
      (seriesMin ((liftVals l).map Prod.snd)) = some 0 := by
    rw [htie, hm]
    simp [optSub]
  rw [normalize] at hp
  rcases List.mem_map.1 hp with ⟨q, _, hpq⟩
  have hval : normalizedOf (liftVals l) q.2 = some 1 := by
    simp only [normalizedOf, normCell]
    rw [if_pos hsub]
    show some (max 1 epsilon) = some 1
    rw [max_eq_left (by norm_num [epsilon])]
  rw [← hpq]
  exact hval

/-- C1 witness at a two-entry tied mapping. -/
theorem normalize_all_tied_witness :
    (([(Cell.str "A", (5 : ℚ)), (Cell.str "B", 5)] : List (Cell × ℚ)) ≠ []) ∧
    ((Cell.str "A", some (1 : ℚ)) : Cell × Option ℚ).2 = some 1 :=
  ⟨by simp, normalize_all_tied [(Cell.str "A", 5), (Cell.str "B", 5)] (by simp)
    (by simp [liftVals, seriesMin, seriesMax]) (Cell.str "A", some 1)
    (by norm_num [normalize, liftVals, normalizedOf, normCell, seriesMin, seriesMax,
      optSub, optDiv, epsilon, min_def, max_def, List.filterMap_cons, id_eq])⟩

/-- C2: for every non-empty raw-value mapping, every normalized value lies in
the closed interval from epsilon = 0.02 to 1.0. -/
theorem normalize_range (l : List (Cell × ℚ)) (_hne : l ≠ []) :
    ∀ p ∈ normalize (liftVals l), ∃ x : ℚ, p.2 = some x ∧ epsilon ≤ x ∧ x ≤ 1 := by
  intro p hp
  rw [normalize] at hp
  rcases List.mem_map.1 hp with ⟨q, hq, hpq⟩
  rcases List.mem_map.1 hq with ⟨q0, hq0, hq0q⟩
  have hv : some q0.2 ∈ (liftVals l).map Prod.snd := by
    rw [liftVals_snd]
    exact List.mem_map.2 ⟨q0, hq0, rfl⟩
  obtain ⟨m, hm⟩ := seriesMin_isSome _ _ hv
  obtain ⟨M, hM⟩ := seriesMax_isSome _ _ hv
  have hq2 : q.2 = some q0.2 := by rw [← hq0q]
  by_cases hdeg : optSub (seriesMax ((liftVals l).map Prod.snd))
      (seriesMin ((liftVals l).map Prod.snd)) = some 0
  · refine ⟨1, ?_, by norm_num [epsilon], le_refl 1⟩
    rw [← hpq]
    show normalizedOf (liftVals l) q.2 = some 1
    simp only [normalizedOf, normCell]
    rw [if_pos hdeg]
    show some (max 1 epsilon) = some 1
    rw [max_eq_left (by norm_num [epsilon])]
  · have hMm : ¬ (M - m = 0) := by
      rw [hm, hM] at hdeg
      simp only [optSub, Option.some.injEq] at hdeg
      exact hdeg
    have hmM : m < M :=
      lt_of_le_of_ne (seriesMin_le_seriesMax _ _ _ hm hM)
        (fun he => hMm (by rw [he, sub_self]))
    have hml : m ≤ q0.2 := seriesMin_le _ _ _ hm hv
    have hMu : q0.2 ≤ M := le_seriesMax _ _ _ hM hv
    refine ⟨max ((q0.2 - m) / (M - m)) epsilon, ?_, le_max_right _ _, ?_⟩
    · rw [← hpq]
      show normalizedOf (liftVals l) q.2 = _
      rw [hq2]
      simp only [normalizedOf, normCell]
      rw [hm, hM]
      simp only [optSub, optDiv, Option.some.injEq]
      rw [if_neg hMm]
      rfl
    · apply max_le
      · rw [div_le_one (by linarith)]
        linarith
      · norm_num [epsilon]

/-- C2 witness at a two-entry mapping, read off at the first group. -/
theorem normalize_range_witness :
    ∃ x : ℚ, ((Cell.str "A", some epsilon) : Cell × Option ℚ).2 = some x ∧
      epsilon ≤ x ∧ x ≤ 1 :=
  normalize_range [(Cell.str "A", 0), (Cell.str "B", 50)] (by simp)
    (Cell.str "A", some epsilon)
    (by norm_num [normalize, liftVals, normalizedOf, normCell, seriesMin, seriesMax,
      optSub, optDiv, epsilon, min_def, max_def, List.filterMap_cons, id_eq])

/-- C3: normalize is monotonic non-decreasing: for raw values a < b present in
the same call, the normalized value assigned to a is at most the normalized
value assigned to b. -/
theorem normalize_monotonic (l : List (Cell × Option ℚ)) (a b : ℚ)
    (ha : some a ∈ l.map Prod.snd) (_hb : some b ∈ l.map Prod.snd) (hab : a < b) :
    ∃ x y : ℚ, normalizedOf l (some a) = some x ∧ normalizedOf l (some b) = some y ∧ x ≤ y := by
  obtain ⟨m, hm⟩ := seriesMin_isSome _ _ ha
  obtain ⟨M, hM⟩ := seriesMax_isSome _ _ ha
  by_cases hdeg : optSub (seriesMax (l.map Prod.snd)) (seriesMin (l.map Prod.snd)) = some 0
  · refine ⟨1, 1, ?_, ?_, le_refl 1⟩ <;>
      · simp only [normalizedOf, normCell]
        rw [if_pos hdeg]
        show some (max 1 epsilon) = some 1
        rw [max_eq_left (by norm_num [epsilon])]
  · have hMm : ¬ (M - m = 0) := by
      rw [hm, hM] at hdeg
      simp only [optSub, Option.some.injEq] at hdeg
      exact hdeg
    have hmM : m < M :=
      lt_of_le_of_ne (seriesMin_le_seriesMax _ _ _ hm hM)
        (fun he => hMm (by rw [he, sub_self]))
    refine ⟨max ((a - m) / (M - m)) epsilon, max ((b - m) / (M - m)) epsilon, ?_, ?_, ?_⟩
    · simp only [normalizedOf, normCell]
      rw [hm, hM]
      simp only [optSub, optDiv, Option.some.injEq]
      rw [if_neg hMm]
      rfl
    · simp only [normalizedOf, normCell]
      rw [hm, hM]
      simp only [optSub, optDiv, Option.some.injEq]
      rw [if_neg hMm]
      rfl
    · apply max_le_max _ (le_refl epsilon)
      rw [div_le_div_iff_of_pos_right (by linarith)]
      linarith

/-- C3 witness at the raw values 0 and 50 of a two-entry call. -/
theorem normalize_monotonic_witness :
    ∃ x y : ℚ,
      normalizedOf [(Cell.str "A", some 0), (Cell.str "B", some 50)] (some 0) = some x ∧
      normalizedOf [(Cell.str "A", some 0), (Cell.str "B", some 50)] (some 50) = some y ∧
      x ≤ y :=
  normalize_monotonic [(Cell.str "A", some 0), (Cell.str "B", some 50)] 0 50
    (by simp) (by simp) (by norm_num)

/-- C4: with a genuine spread the normalization computes
(raw - min) / (max - min) floored at epsilon = 0.02, and the mapping
A -> 0, B -> 50, C -> 100 normalizes to exactly A -> 0.02, B -> 0.5,
C -> 1.0. -/
theorem normalize_linear (l : List (Cell × Option ℚ)) (m M q : ℚ)
    (hm : seriesMin (l.map Prod.snd) = some m) (hM : seriesMax (l.map Prod.snd) = some M)
    (hlt : m < M) :
    normalizedOf l (some q) = some (max ((q - m) / (M - m)) epsilon) ∧
    normalize [(Cell.str "A", some 0), (Cell.str "B", some 50), (Cell.str "C", some 100)] =
      [(Cell.str "A", some epsilon), (Cell.str "B", some (1 / 2)), (Cell.str "C", some 1)] := by
  constructor
  · have hMm : ¬ (M - m = 0) := by
      intro hc
      have h2 := hlt
      rw [sub_eq_zero] at hc
      rw [hc] at h2
      exact lt_irrefl m h2
    simp only [normalizedOf, normCell]
    rw [hm, hM]
    simp only [optSub, optDiv, Option.some.injEq]
    rw [if_neg hMm]
    rfl
  · norm_num [normalize, normalizedOf, normCell, seriesMin, seriesMax, optSub, optDiv,
      epsilon, min_def, max_def, List.filterMap_cons, id_eq]

/-- C4 witness on the concrete three-entry call of the claim. -/
theorem normalize_linear_witness :
    (normalizedOf [(Cell.str "A", some 0), (Cell.str "B", some 50), (Cell.str "C", some 100)]
        (some 50) = some (max (((50 : ℚ) - 0) / (100 - 0)) epsilon)) ∧
    normalize [(Cell.str "A", some 0), (Cell.str "B", some 50), (Cell.str "C", some 100)] =
      [(Cell.str "A", some epsilon), (Cell.str "B", some (1 / 2)), (Cell.str "C", some 1)] :=
  normalize_linear [(Cell.str "A", some 0), (Cell.str "B", some 50), (Cell.str "C", some 100)]
    0 100 50 (by norm_num [seriesMin, min_def, List.filterMap_cons, id_eq])
    (by norm_num [seriesMax, max_def, List.filterMap_cons, id_eq]) (by norm_num)

/-- C7: build_comparison_table with an empty metrics sequence reports
NoMetricsSelected to the caller instead of crashing or producing a table. -/
theorem build_empty_metrics (df : DataFrame) (key : String) :
    build_comparison_table df key [] = Except.error PipelineError.NoMetricsSelected := by
  rfl

/-! ### Aggregation and pipeline lemmas -/

theorem aggregate_size_eq (df : DataFrame) (key nm : String) (col : Option String)
    (hk : key ∈ df.columns) :
    aggregate df key (MetricDef.mk nm col Aggregator.size) =
      Except.ok ((groupsOf df key).map (fun g =>
        (g, some ((rowsOfGroup df key g).length : ℚ)))) := by
  simp [aggregate, hk]

theorem aggregate_nunique_eq (df : DataFrame) (key c nm : String)
    (hk : key ∈ df.columns) (hc : c ∈ df.columns) :
    aggregate df key (MetricDef.mk nm (some c) Aggregator.nunique) =
      Except.ok ((groupsOf df key).map (fun g =>
        (g, some ((uniqueCells (((rowsOfGroup df key g).map (fun r => r.get c)).filter
          (fun v => decide (v ≠ Cell.null)))).length : ℚ)))) := by
  simp [aggregate, hk, hc]

theorem aggregate_mean_eq (df : DataFrame) (key c nm : String)
    (hk : key ∈ df.columns) (hc : c ∈ df.columns) :
    aggregate df key (MetricDef.mk nm (some c) Aggregator.mean) =
      Except.ok ((groupsOf df key).map (fun g =>
        (g, meanOpt ((rowsOfGroup df key g).filterMap (fun r => cellNum (r.get c)))))) := by
  simp [aggregate, hk, hc]

theorem aggregate_ok_groups (df : DataFrame) (key : String) (m : MetricDef)
    (hk : key ∈ df.columns) (hm : metricOk df m = true) :
    ∃ l, aggregate df key m = Except.ok l ∧ l.map Prod.fst = groupsOf df key := by
  rcases m with ⟨nm, col, agg⟩
  cases agg with
  | size => exact ⟨_, aggregate_size_eq df key nm col hk, by simp [Function.comp_def]⟩
  | nunique =>
      cases col with
      | none => simp [metricOk] at hm
      | some c =>
          have hc : c ∈ df.columns := by simpa [metricOk] using hm
          exact ⟨_, aggregate_nunique_eq df key c nm hk hc, by simp [Function.comp_def]⟩
  | mean =>
      cases col with
      | none => simp [metricOk] at hm
      | some c =>
          have hc : c ∈ df.columns := by simpa [metricOk] using hm
          exact ⟨_, aggregate_mean_eq df key c nm hk hc, by simp [Function.comp_def]⟩

theorem metricRows_ok (df : DataFrame) (key : String) (m : MetricDef)
    (hk : key ∈ df.columns) (hm : metricOk df m = true) :
    ∃ rows, metricRows df key m = Except.ok rows ∧
      rows.map TableRow.group = groupsOf df key ∧
      ∀ row ∈ rows, row.metric = m.name := by
  obtain ⟨l, hl, hmap⟩ := aggregate_ok_groups df key m hk hm
  refine ⟨_, by rw [metricRows, hl], ?_, ?_⟩
  · rw [← hmap]
    simp
  · intro row hrow
    rcases List.mem_map.1 hrow with ⟨p, _, hpr⟩
    rw [← hpr]

theorem aggregate_missing_key (df : DataFrame) (key : String) (m : MetricDef)
    (hk : key ∉ df.columns) :
    aggregate df key m = Except.error (PipelineError.KeyError key) := by
  simp [aggregate, hk]

theorem aggregate_missing_col (df : DataFrame) (key : String) (m : MetricDef) (c : String)
    (hk : key ∈ df.columns) (hcol : m.column = some c) (hc : c ∉ df.columns)
    (hagg : m.agg ≠ Aggregator.size) :
    aggregate df key m = Except.error (PipelineError.KeyError c) := by
  rcases m with ⟨nm, col, agg⟩
  obtain rfl : col = some c := hcol
  cases agg with
  | size => exact absurd rfl hagg
  | nunique => simp [aggregate, hk, hc]
  | mean => simp [aggregate, hk, hc]

theorem build_first_metric_error (df : DataFrame) (key : String) (m : MetricDef)
    (ms : List MetricDef) (e : PipelineError)
    (he : aggregate df key m = Except.error e) :
    build_comparison_table df key (m :: ms) = Except.error e := by
  rw [build_comparison_table, if_neg (List.cons_ne_nil m ms)]
  simp only [buildParts, metricRows, he]

/-! ### Claims about aggregation and the comparison table -/

/-- C5 counterexample: in dfC5 the group "A" has zero non-missing values of
salary_usd, yet the mean aggregation keeps the group, pairing it with the
missing value — it is not excluded from the result. -/
theorem aggregate_mean_counterexample :
    aggregate dfC5 "job_title" mSal =
      Except.ok [(Cell.str "A", none), (Cell.str "B", some 100)] ∧
    (rowsOfGroup dfC5 "job_title" (Cell.str "A")).filterMap
      (fun r => cellNum (r.get "salary_usd")) = [] ∧
    build_comparison_table dfC5 "job_title" [mSal] =
      Except.ok [TableRow.mk (Cell.str "A") "Average Salary (USD)" none (some 1),
                 TableRow.mk (Cell.str "B") "Average Salary (USD)" (some 100) (some 1)] := by
  refine ⟨?_, ?_, ?_⟩
  · norm_num +decide [aggregate, dfC5, mSal, groupsOf, uniqueCells, rowsOfGroup, meanOpt,
      cellNum, Row.get, lookupCell, List.filterMap_cons]
  · norm_num +decide [rowsOfGroup, dfC5, cellNum, Row.get, lookupCell, List.filterMap_cons]
  · norm_num +decide [build_comparison_table, buildParts, metricRows, aggregate, dfC5, mSal,
      groupsOf, uniqueCells, rowsOfGroup, meanOpt, cellNum, Row.get, lookupCell,
      normalizedOf, normCell, seriesMin, seriesMax, optSub, optDiv, epsilon,
      min_def, max_def, List.filterMap_cons, id_eq]

/-- C5 (amended): for MEAN, aggregate returns per group the arithmetic mean
of the non-missing numeric values of the source column, and a group with
zero non-missing values still appears in the result, paired with the missing
value NaN — it is neither excluded nor zero-filled. -/
theorem aggregate_mean_keeps_groups (df : DataFrame) (key c nm : String)
    (hk : key ∈ df.columns) (hc : c ∈ df.columns) :
    ∃ l, aggregate df key (MetricDef.mk nm (some c) Aggregator.mean) = Except.ok l ∧
      l.map Prod.fst = groupsOf df key ∧
      (∀ g ∈ groupsOf df key, ∃ v, (g, v) ∈ l) ∧
      ∀ p ∈ l, p.2 = meanOpt ((rowsOfGroup df key p.1).filterMap (fun r => cellNum (r.get c))) := by
  refine ⟨_, aggregate_mean_eq df key c nm hk hc, by simp [Function.comp_def], ?_, ?_⟩
  · intro g hg
    exact ⟨_, List.mem_map.2 ⟨g, hg, rfl⟩⟩
  · intro p hp
    rcases List.mem_map.1 hp with ⟨g, _, hgp⟩
    rw [← hgp]

/-- C5 witness on the concrete dataset dfC5. -/
theorem aggregate_mean_keeps_groups_witness :
    ("job_title" ∈ dfC5.columns) ∧ ("salary_usd" ∈ dfC5.columns) ∧
    (∃ l, aggregate dfC5 "job_title"
        (MetricDef.mk "Average Salary (USD)" (some "salary_usd") Aggregator.mean) =
          Except.ok l ∧
      l.map Prod.fst = groupsOf dfC5 "job_title" ∧
      (∀ g ∈ groupsOf dfC5 "job_title", ∃ v, (g, v) ∈ l) ∧
      ∀ p ∈ l, p.2 = meanOpt ((rowsOfGroup dfC5 "job_title" p.1).filterMap
        (fun r => cellNum (r.get "salary_usd")))) :=
  ⟨by decide, by decide,
    aggregate_mean_keeps_groups dfC5 "job_title" "salary_usd" "Average Salary (USD)"
      (by decide) (by decide)⟩

/-- C6: in every table the pipeline builds from well-formed inputs, each
metric contributes exactly one row per group of the full filtered dataset,
so the set of group values is identical across all metrics present and a
group/metric pair with missing raw data appears as an explicit row (with a
NaN raw value) rather than as a silent gap. -/
theorem build_groups_uniform (df : DataFrame) (key : String) (metrics : List MetricDef)
    (hk : key ∈ df.columns) (hm : ∀ m ∈ metrics, metricOk df m = true) :
    ∃ parts, buildParts df key metrics = Except.ok parts ∧
      List.Forall₂ (fun (part : List TableRow) (m : MetricDef) =>
        part.map TableRow.group = groupsOf df key ∧ ∀ row ∈ part, row.metric = m.name)
        parts metrics ∧
      (metrics ≠ [] → build_comparison_table df key metrics = Except.ok parts.flatten) := by
  induction metrics with
  | nil => exact ⟨[], rfl, List.Forall₂.nil, fun hne => absurd rfl hne⟩
  | cons m ms ih =>
      obtain ⟨rows, hrows, hg, hn⟩ := metricRows_ok df key m hk (hm m (List.mem_cons_self m ms))
      obtain ⟨parts, hparts, hfa, _⟩ := ih (fun m2 hm2 => hm m2 (List.mem_cons_of_mem m hm2))
      refine ⟨rows :: parts, ?_, List.Forall₂.cons ⟨hg, hn⟩ hfa, ?_⟩
      · simp only [buildParts, hrows, hparts]
      · intro _
        rw [build_comparison_table, if_neg (List.cons_ne_nil m ms)]
        simp only [buildParts, hrows, hparts]

/-- C6 witness on dfC5 with the salary and job-count metrics. -/
theorem build_groups_uniform_witness :
    ("job_title" ∈ dfC5.columns) ∧ (∀ m ∈ [mSal, mCount], metricOk dfC5 m = true) ∧
    (∃ parts, buildParts dfC5 "job_title" [mSal, mCount] = Except.ok parts ∧
      List.Forall₂ (fun (part : List TableRow) (m : MetricDef) =>
        part.map TableRow.group = groupsOf dfC5 "job_title" ∧
          ∀ row ∈ part, row.metric = m.name)
        parts [mSal, mCount] ∧
      ([mSal, mCount] ≠ [] → build_comparison_table dfC5 "job_title" [mSal, mCount] =
        Except.ok parts.flatten)) :=
  ⟨by decide, by decide,
    build_groups_uniform dfC5 "job_title" [mSal, mCount] (by decide) (by decide)⟩

/-- C8 counterexample: with an absent group key the pipeline fails with the
uncaught pandas KeyError, not with the InvalidGroupKey signal, and with an
absent metric source column it fails with the KeyError of that column, not
with InvalidMetricColumn. -/
theorem build_missing_columns_counterexample :
    build_comparison_table dfC5 "nope" [mSal] ≠ Except.error PipelineError.InvalidGroupKey ∧
    build_comparison_table dfC5 "job_title"
      [MetricDef.mk "m" (some "missing_col") Aggregator.mean] ≠
        Except.error PipelineError.InvalidMetricColumn ∧
    build_comparison_table dfC5 "nope" [mSal] = Except.error (PipelineError.KeyError "nope") := by
  have h1 : build_comparison_table dfC5 "nope" [mSal] =
      Except.error (PipelineError.KeyError "nope") :=
    build_first_metric_error dfC5 "nope" mSal [] _
      (aggregate_missing_key dfC5 "nope" mSal (by decide))
  have h2 : build_comparison_table dfC5 "job_title"
      [MetricDef.mk "m" (some "missing_col") Aggregator.mean] =
        Except.error (PipelineError.KeyError "missing_col") :=
    build_first_metric_error dfC5 "job_title" _ [] _
      (aggregate_missing_col dfC5 "job_title" _ "missing_col" (by decide) rfl
        (by decide) (by decide))
  refine ⟨?_, ?_, h1⟩
  · rw [h1]
    simp
  · rw [h2]
    simp

/-- C8 (amended): with a group_key absent from the dataset columns the
pipeline fails with the pandas KeyError on that key, and with a first metric
whose required source column is absent it fails with the KeyError on that
column; the code performs no column validation of its own and never
substitutes defaults, but it also never reports the dedicated
InvalidGroupKey / InvalidMetricColumn kinds. -/
theorem build_missing_columns (df : DataFrame) (key : String) (m : MetricDef)
    (ms : List MetricDef) (c : String) :
    (key ∉ df.columns →
      build_comparison_table df key (m :: ms) = Except.error (PipelineError.KeyError key)) ∧
    (key ∈ df.columns → m.column = some c → c ∉ df.columns → m.agg ≠ Aggregator.size →
      build_comparison_table df key (m :: ms) = Except.error (PipelineError.KeyError c)) := by
  constructor
  · intro hk
    exact build_first_metric_error df key m ms _ (aggregate_missing_key df key m hk)
  · intro hk hcol hc hagg
    exact build_first_metric_error df key m ms _
      (aggregate_missing_col df key m c hk hcol hc hagg)

/-- C8 witness on the two concrete failing calls. -/
theorem build_missing_columns_witness :
    (build_comparison_table dfC5 "nope" [mSal] =
      Except.error (PipelineError.KeyError "nope")) ∧
    (build_comparison_table dfC5 "job_title"
      [MetricDef.mk "m" (some "missing_col") Aggregator.mean] =
        Except.error (PipelineError.KeyError "missing_col")) :=
  ⟨(build_missing_columns dfC5 "nope" mSal [] "x").1 (by decide),
   (build_missing_columns dfC5 "job_title"
      (MetricDef.mk "m" (some "missing_col") Aggregator.mean) [] "missing_col").2
      (by decide) rfl (by decide) (by decide)⟩

/-! ### Label-decluttering lemmas -/

theorem nlargest_subset (K : ℕ) (tbl : List SkillStat) :
    ∀ x ∈ nlargestByScore K tbl, x ∈ tbl := by
  intro x hx
  have h1 : x ∈ tbl.insertionSort (scoreDescRel tbl) := List.take_subset _ _ hx
  exact (List.mem_insertionSort (scoreDescRel tbl)).1 h1

theorem name_inj_of_nodup {tbl : List SkillStat} (hnd : (tbl.map SkillStat.name).Nodup)
    {s t : SkillStat} (hs : s ∈ tbl) (ht : t ∈ tbl) (h : s.name = t.name) : s = t :=
  List.inj_on_of_nodup_map hnd hs ht h

theorem mem_name_top_iff (K : ℕ) (tbl : List SkillStat)
    (hnd : (tbl.map SkillStat.name).Nodup) {s : SkillStat} (hs : s ∈ tbl) :
    (s.name ∈ top_skills K tbl) ↔ s ∈ nlargestByScore K tbl := by
  constructor
  · intro h
    rcases List.mem_map.1 h with ⟨t, ht, htn⟩
    rw [← name_inj_of_nodup hnd (nlargest_subset K tbl t ht) hs htn]
    exact ht
  · intro h
    exact List.mem_map.2 ⟨s, h, rfl⟩

theorem labeled_count (K : ℕ) (tbl : List SkillStat)
    (hnd : (tbl.map SkillStat.name).Nodup) (hne : ∀ s ∈ tbl, s.name ≠ "")
    (hK : K ≤ tbl.length) :
    (labelTable K tbl).countP (fun p => decide (p.2 ≠ "")) = K := by
  have hperm := List.perm_insertionSort (scoreDescRel tbl) tbl
  have hnds : (tbl.insertionSort (scoreDescRel tbl)).Nodup :=
    hperm.nodup_iff.2 hnd.of_map
  have h1 : (labelTable K tbl).countP (fun p => decide (p.2 ≠ "")) =
      tbl.countP (fun s => decide (s ∈ nlargestByScore K tbl)) := by
    rw [labelTable, List.countP_map]
    apply List.countP_congr
    intro s hs
    by_cases hmem : s.name ∈ top_skills K tbl
    · simp only [Function.comp_apply, hmem, if_true]
      simp [hne s hs, (mem_name_top_iff K tbl hnd hs).1 hmem]
    · simp only [Function.comp_apply, hmem, if_false]
      simp
      exact fun h => hmem ((mem_name_top_iff K tbl hnd hs).2 h)
  have h2 : tbl.countP (fun s => decide (s ∈ nlargestByScore K tbl)) =
      (tbl.insertionSort (scoreDescRel tbl)).countP
        (fun s => decide (s ∈ nlargestByScore K tbl)) :=
    (hperm.countP_eq _).symm
  rw [h1, h2]
  conv_lhs => rw [← List.take_append_drop K (tbl.insertionSort (scoreDescRel tbl))]
  rw [List.countP_append]
  have hd : List.Disjoint ((tbl.insertionSort (scoreDescRel tbl)).take K)
      ((tbl.insertionSort (scoreDescRel tbl)).drop K) := by
    have h3 := hnds
    rw [← List.take_append_drop K (tbl.insertionSort (scoreDescRel tbl))] at h3
    exact (List.nodup_append.1 h3).2.2
  have htake : (((tbl.insertionSort (scoreDescRel tbl)).take K).countP
      (fun s => decide (s ∈ nlargestByScore K tbl))) = K := by
    rw [List.countP_eq_length.2]
    · rw [List.length_take, List.length_insertionSort]
      exact Nat.min_eq_left hK
    · intro a ha
      exact decide_eq_true ha
  have hdrop : (((tbl.insertionSort (scoreDescRel tbl)).drop K).countP
      (fun s => decide (s ∈ nlargestByScore K tbl))) = 0 := by
    rw [List.countP_eq_zero]
    intro a ha
    simp only [decide_eq_true_eq]
    exact fun hcon => hd hcon ha
  rw [htake, hdrop]
  rfl

theorem nlargest_dominates (K : ℕ) (tbl : List SkillStat) {x y : SkillStat}
    (hx : x ∈ nlargestByScore K tbl) (hy : y ∈ tbl) (hyn : y ∉ nlargestByScore K tbl) :
    scoreOf tbl y ≤ scoreOf tbl x := by
  have hys : y ∈ tbl.insertionSort (scoreDescRel tbl) :=
    (List.mem_insertionSort (scoreDescRel tbl)).2 hy
  rw [← List.take_append_drop K (tbl.insertionSort (scoreDescRel tbl))] at hys
  rcases List.mem_append.1 hys with h | h
  · exact absurd h hyn
  · exact (List.sorted_insertionSort (scoreDescRel tbl) tbl).rel_of_mem_take_of_mem_drop hx h

theorem mem_take_of_pair_sublist {α : Type} {x y : α} {K : ℕ} {l : List α}
    (hnd : l.Nodup) (hsub : List.Sublist [x, y] l) (hy : y ∈ l.take K) : x ∈ l.take K := by
  induction l generalizing K with
  | nil => simp at hsub
  | cons a as ih =>
      cases K with
      | zero => simp at hy
      | succ k =>
          rw [List.take_succ_cons] at hy ⊢
          cases hsub with
          | cons _ h =>
              rcases List.mem_cons.1 hy with hya | hyt
              · exfalso
                have hyas : y ∈ as := h.subset (by simp)
                rw [← hya] at hnd
                exact (List.nodup_cons.1 hnd).1 hyas
              · exact List.mem_cons.2 (Or.inr (ih (List.nodup_cons.1 hnd).2 h hyt))
          | cons₂ _ h => exact List.mem_cons_self _ _

/-! ### Claims about the skills page -/

/-- C9: the decluttering heuristic scores each entity as
salary / max(salary) + demand / max(demand), selects the top-K by Score with
the stable tie-break of nlargest (earlier input rows win ties), labels
exactly those K entities with their own names and every other entity with
the empty label, and on the concrete table scored X -> 1.8, Y -> 1.5,
Z -> 0.9 with K = 2 it labels X and Y and leaves Z blank. -/
theorem label_declutter (K : ℕ) (tbl : List SkillStat)
    (hnd : (tbl.map SkillStat.name).Nodup) (hne : ∀ s ∈ tbl, s.name ≠ "")
    (hK : K ≤ tbl.length) :
    ((labelTable K tbl).map Prod.fst = tbl) ∧
    (∀ s, scoreOf tbl s =
      s.salary / colMax (tbl.map SkillStat.salary) +
        s.count / colMax (tbl.map SkillStat.count)) ∧
    (∀ p ∈ labelTable K tbl,
      (p.1 ∈ nlargestByScore K tbl ∧ p.2 = p.1.name) ∨
      (p.1 ∉ nlargestByScore K tbl ∧ p.2 = "")) ∧
    ((labelTable K tbl).countP (fun p => decide (p.2 ≠ "")) = K) ∧
    (∀ x ∈ nlargestByScore K tbl, ∀ p ∈ labelTable K tbl, p.2 = "" →
      scoreOf tbl p.1 ≤ scoreOf tbl x) ∧
    (∀ x y, List.Sublist [x, y] tbl → scoreOf tbl x = scoreOf tbl y →
      y ∈ nlargestByScore K tbl → x ∈ nlargestByScore K tbl) ∧
    (scoreOf exampleTbl (SkillStat.mk "X" 100 80) = 18 / 10 ∧
     scoreOf exampleTbl (SkillStat.mk "Y" 50 100) = 15 / 10 ∧
     scoreOf exampleTbl (SkillStat.mk "Z" 40 50) = 9 / 10) ∧
    (labelTable 2 exampleTbl =
      [(SkillStat.mk "X" 100 80, "X"), (SkillStat.mk "Y" 50 100, "Y"),
       (SkillStat.mk "Z" 40 50, "")]) := by
  refine ⟨?_, ?_, ?_, labeled_count K tbl hnd hne hK, ?_, ?_, ?_, ?_⟩
  · simp [labelTable, Function.comp_def]
  · intro s
    rfl
  · intro p hp
    rcases List.mem_map.1 hp with ⟨s, hs, hsp⟩
    by_cases hmem : s.name ∈ top_skills K tbl
    · left
      rw [← hsp]
      exact ⟨(mem_name_top_iff K tbl hnd hs).1 hmem, by simp [hmem]⟩
    · right
      rw [← hsp]
      exact ⟨fun hcon => hmem ((mem_name_top_iff K tbl hnd hs).2 hcon), by simp [hmem]⟩
  · intro x hx p hp hlab
    rcases List.mem_map.1 hp with ⟨s, hs, hsp⟩
    have hnotin : s ∉ nlargestByScore K tbl := by
      intro hcon
      have hname : s.name ∈ top_skills K tbl := (mem_name_top_iff K tbl hnd hs).2 hcon
      rw [← hsp] at hlab
      simp only [hname, if_true] at hlab
      exact hne s hs hlab
    have h1 : p.1 = s := by rw [← hsp]
    rw [h1]
    exact nlargest_dominates K tbl hx hs hnotin
  · intro x y hsub hscore hy
    have hxy : scoreDescRel tbl x y := le_of_eq hscore.symm
    have hpair : List.Sublist [x, y] (tbl.insertionSort (scoreDescRel tbl)) :=
      List.pair_sublist_insertionSort hxy hsub
    have hnds : (tbl.insertionSort (scoreDescRel tbl)).Nodup :=
      (List.perm_insertionSort (scoreDescRel tbl) tbl).nodup_iff.2 hnd.of_map
    exact mem_take_of_pair_sublist hnds hpair hy
  · refine ⟨?_, ?_, ?_⟩ <;> norm_num [scoreOf, colMax, exampleTbl, max_def]
  · norm_num +decide [labelTable, top_skills, nlargestByScore, exampleTbl, scoreDescRel,
      scoreOf, colMax, max_def]

/-- C9 witness: the hypotheses hold of the concrete example table and the
theorem applies there with K = 2. -/
theorem label_declutter_witness :
    ((exampleTbl.map SkillStat.name).Nodup ∧ (∀ s ∈ exampleTbl, s.name ≠ "") ∧
      2 ≤ exampleTbl.length) ∧
    (labelTable 2 exampleTbl).countP (fun p => decide (p.2 ≠ "")) = 2 :=
  ⟨⟨by decide, by decide, by decide⟩,
    (label_declutter 2 exampleTbl (by decide) (by decide) (by decide)).2.2.2.1⟩

/-- C10: every entity of the skills-page output, labeled or not, has a job
count of at least 10, for every experience-level selection: the Job_Count
threshold filter runs before the score and label logic on every
invocation. -/
theorem skillPage_min_demand (sel : List String) (rows : List JobRow) :
    ∀ p ∈ skillPage sel rows, (10 : ℚ) ≤ p.1.count := by
  intro p hp
  simp only [skillPage, labelTable] at hp
  rcases List.mem_map.1 hp with ⟨s, hs, hsp⟩
  rcases List.mem_map.1 hs with ⟨raw, hraw, hrs⟩
  have h10 : 10 ≤ raw.Job_Count := by
    simp only [skillStats] at hraw
    rcases List.mem_map.1 hraw with ⟨r0, hr0, hr0s⟩
    have hdec := List.of_mem_filter hr0
    have h0 : 10 ≤ r0.Job_Count := of_decide_eq_true hdec
    rw [← hr0s]
    exact h0
  have h1 : p.1 = toSkillStat raw := by rw [← hsp, ← hrs]
  rw [h1]
  show (10 : ℚ) ≤ (raw.Job_Count : ℚ)
  exact_mod_cast h10

/-- C10 witness: ten identical rows of one skill pass the threshold and the
page keeps the skill with job count 10. -/
theorem skillPage_min_demand_witness :
    ((SkillStat.mk "Python" 100 10, "Python") ∈ skillPage ["EN"] wrows) ∧
    (10 : ℚ) ≤ (SkillStat.mk "Python" 100 10, "Python").1.count :=
  have hmem : (SkillStat.mk "Python" 100 10, "Python") ∈ skillPage ["EN"] wrows := by
    norm_num +decide [skillPage, labelTable, top_skills, nlargestByScore, scoreDescRel,
      scoreOf, colMax, skillStats, skillAgg, renameRows, renameSkill, uniqueStrings,
      wrows, meanOpt, roundHalfEven, toSkillStat, num_labels, max_def,
      List.filterMap_cons, List.replicate]
  ⟨hmem, skillPage_min_demand ["EN"] wrows (SkillStat.mk "Python" 100 10, "Python") hmem⟩

end Dashboard
